import Mathlib

/-!
# Table Registry & Range-Reconciliation Engine — verification

Shallow embedding of the structured-table core of `src/code.gas.js`
(async-scrum-poker-gas): address conversion (`toColA1`, `gridRangeToA1`),
the table registry (`getTablesIndex`, `getTableMetaByName`), header-indexed
column resolution (`idxByName`), the row reconciliation performed by
`updateMembersTable`, and the record loaders (`getPoGroupMembers`,
`getEstimateRequiredMembers`, `getEstimateDeadlines`).

JavaScript primitives are embedded explicitly: `jsOr` models `x || d` on
optional non-negative numbers (`0` is falsy), `jsTrim` models
`String.prototype.trim`, `natToDecimal` models decimal printing of a
non-negative number by template interpolation.
-/

namespace ScrumPoker

/-- JS `x || d` for an optional numeric field: `undefined` and `0` are falsy. -/
def jsOr (v : Option Nat) (d : Nat) : Nat :=
  match v with
  | none => d
  | some x => if x = 0 then d else x

/-- JS `String.prototype.trim`: strip leading and trailing whitespace. -/
def jsTrim (s : String) : String :=
  ⟨((s.data.dropWhile Char.isWhitespace).reverse.dropWhile Char.isWhitespace).reverse⟩

/-- Loop body of `toColA1` (src/code.gas.js:128-136), on the 1-based column
number `n`, with explicit fuel (the loop runs at most `n` iterations since
`(n-1)/26 < n` for `n ≥ 1`). Builds the bijective base-26 letter string by
prepending `chr(65 + (n-1) % 26)` and continuing with `(n-1)/26`. -/
def colA1Go : Nat → Nat → List Char → List Char
  | _, 0, acc => acc
  | 0, _ + 1, acc => acc
  | fuel + 1, m + 1, acc => colA1Go fuel (m / 26) (Char.ofNat (65 + m % 26) :: acc)

/-- Embeds `toColA1` (src/code.gas.js:128-137): zero-based column index to A1 letters. -/
def toColA1 (zeroBased : Nat) : String :=
  ⟨colA1Go (zeroBased + 1) (zeroBased + 1) []⟩

/-- JS `${n}` decimal printing of a non-negative number, with explicit fuel. -/
def natToDecGo : Nat → Nat → List Char → List Char
  | 0, n, acc => Char.ofNat (48 + n % 10) :: acc
  | fuel + 1, n, acc =>
    if n < 10 then Char.ofNat (48 + n) :: acc
    else natToDecGo fuel (n / 10) (Char.ofNat (48 + n % 10) :: acc)

/-- Decimal representation of a non-negative number, as JS string interpolation. -/
def natToDecimal (n : Nat) : String :=
  ⟨natToDecGo n n []⟩

/-- Embeds `GGridRange` (src/code.gas.js:69): a Sheets API grid range; every field
may be absent. Zero-based rows/columns, end-exclusive. -/
structure GGridRange where
  sheetId : Option Int := none
  startRowIndex : Option Nat := none
  endRowIndex : Option Nat := none
  startColumnIndex : Option Nat := none
  endColumnIndex : Option Nat := none
deriving DecidableEq, Repr

/-- Embeds `gridRangeToA1` (src/code.gas.js:127-143):
`sr = (gr.startRowIndex || 0) + 1`, `er = gr.endRowIndex || sr`,
`sc = toColA1(gr.startColumnIndex || 0)`, `ec = toColA1((gr.endColumnIndex || 1) - 1)`,
returning `` `${sheetTitle}!${sc}${sr}:${ec}${er}` ``. -/
def gridRangeToA1 (gr : GGridRange) (sheetTitle : String) : String :=
  let sr := jsOr gr.startRowIndex 0 + 1
  let er := jsOr gr.endRowIndex sr
  let sc := toColA1 (jsOr gr.startColumnIndex 0)
  let ec := toColA1 (jsOr gr.endColumnIndex 1 - 1)
  sheetTitle ++ "!" ++ sc ++ natToDecimal sr ++ ":" ++ ec ++ natToDecimal er

/-- The spec's `Rectangle`: zero-based, end-exclusive bounds, all present. -/
structure Rectangle where
  startRow : Nat
  endRow : Nat
  startCol : Nat
  endCol : Nat
deriving DecidableEq, Repr

/-- Bijective base-26 letter decoding (A=1, ..., Z=26). -/
def decodeCol (cs : List Char) : Nat :=
  cs.foldl (fun a c => a * 26 + (c.toNat - 64)) 0

/-- Decimal digit decoding. -/
def decodeDec (cs : List Char) : Nat :=
  cs.foldl (fun a c => a * 10 + (c.toNat - 48)) 0

/-- The characters after the last `!` of an address. -/
def afterLastBang (cs : List Char) : List Char :=
  ((cs.reverse.takeWhile (fun c => c ≠ '!')).reverse)

/-- Is the character a column letter `A`–`Z`? -/
def isColLetter (c : Char) : Bool :=
  decide (65 ≤ c.toNat ∧ c.toNat ≤ 90)

/-- Modelled from the spec: `toRectangle(address) -> Rectangle` (spec §4.1's
inverse converter; the repository implements only `gridRangeToA1`, so the
inverse is modelled here from the spec's words). It takes the range part after
the sheet title, splits it at `:`, reads each cell as column letters followed
by a 1-based row number, and converts back to the zero-based end-exclusive
rectangle (start row/col lose 1; the end row is kept as-is and the end column
is kept as its 1-based value, both being numerically equal to the exclusive
zero-based bounds). Malformed addresses yield `none`. -/
def toRectangle (address : String) : Option Rectangle :=
  let tail := afterLastBang address.data
  let startCell := tail.takeWhile (fun c => c ≠ ':')
  let endCell := (tail.dropWhile (fun c => c ≠ ':')).drop 1
  let sL := startCell.takeWhile isColLetter
  let sD := startCell.dropWhile isColLetter
  let eL := endCell.takeWhile isColLetter
  let eD := endCell.dropWhile isColLetter
  if sL ≠ [] ∧ sD ≠ [] ∧ eL ≠ [] ∧ eD ≠ [] then
    some ⟨decodeDec sD - 1, decodeDec eD, decodeCol sL - 1, decodeCol eL⟩
  else
    none

/-! ## Table registry (`getTablesIndex`, `getTableMetaByName`) -/

/-- One declared table of a sheet, as returned by
`Sheets.Spreadsheets.get` with fields `tables(name,tableId,range)`. -/
structure TableEntry where
  name : String
  tableId : String
  range : GGridRange
deriving DecidableEq, Repr

/-- One sheet of the spreadsheet, as returned by `Sheets.Spreadsheets.get`
with fields `sheets(properties(sheetId,title),tables(...))`; the properties
may be absent. -/
structure SheetEntry where
  sheetId : Option Int
  title : Option String
  tables : List TableEntry
deriving DecidableEq, Repr

/-- Embeds `TableMeta` (src/code.gas.js:70). -/
structure TableMeta where
  tableId : String
  sheetId : Int
  sheetTitle : String
  range : GGridRange
deriving DecidableEq, Repr

/-- The association list written into `out` by the scan loop of
`getTablesIndex` (src/code.gas.js:90-107), in scan order. A later assignment
to the same name overwrites an earlier one, so lookups read the last match. -/
def buildTablesIndex (sheets : List SheetEntry) : List (String × TableMeta) :=
  sheets.flatMap fun sh =>
    sh.tables.map fun t =>
      (t.name,
        { tableId := t.tableId
          sheetId := sh.sheetId.getD (-1)
          sheetTitle := (sh.title.getD "")
          range := t.range })

/-- Lookup in the scan-order association list with JS-object semantics:
the last assignment to a name wins. -/
def lookupTable (idx : List (String × TableMeta)) (name : String) : Option TableMeta :=
  (idx.reverse.find? (fun p => p.1 == name)).map (·.2)

/-- Process-local execution state. The source keeps no cache for the tables
index; the only observable state of `getTablesIndex` is the number of
`Sheets.Spreadsheets.get` registry scans it has issued, counted here. -/
structure ExecState where
  scans : Nat
deriving DecidableEq, Repr

/-- Embeds `getTablesIndex` (src/code.gas.js:81-108): every call issues one
`Sheets.Spreadsheets.get` scan of the spreadsheet and rebuilds the
name-to-meta dictionary; there is no memoization. -/
def getTablesIndex (ss : List SheetEntry) (st : ExecState) :
    List (String × TableMeta) × ExecState :=
  (buildTablesIndex ss, { scans := st.scans + 1 })

/-- Embeds `getTableMetaByName` (src/code.gas.js:115-120): rebuild the index, then
look the name up; throw `table not found: <name>` when absent. -/
def getTableMetaByName (tableName : String) (ss : List SheetEntry) (st : ExecState) :
    Except String TableMeta × ExecState :=
  let r := getTablesIndex ss st
  match lookupTable r.1 tableName with
  | none => (.error s!"table not found: {tableName}", r.2)
  | some meta => (.ok meta, r.2)

/-! ## Header-indexed column resolution -/

/-- Embeds `idxByName` (src/code.gas.js:1189-1195): first index of `name` in the
(already trimmed) header values; throws `ヘッダー未検出: <name>` when absent. -/
def idxByName (headerVals : List String) (name : String) : Except String Nat :=
  match headerVals.findIdx? (· == name) with
  | some idx => .ok idx
  | none => .error s!"ヘッダー未検出: {name}"

/-- Header values as built by the source before lookup
(src/code.gas.js:1188, 166, 572, 649): each cell stringified and trimmed. -/
def buildHeaderVals (raw : List String) : List String :=
  raw.map jsTrim

/-! ## Row reconciliation (`updateMembersTable`, src/code.gas.js:873-1128) -/

/-- A structural mutation issued through `Sheets.Spreadsheets.batchUpdate`. -/
inductive StructuralOp where
  | insertRows (sheetId : Int) (startIndex endIndex : Nat)
  | deleteRows (sheetId : Int) (startIndex endIndex : Nat)
  | updateTableRange (tableId : String) (range : GGridRange)
deriving DecidableEq, Repr

/-- The ordered sequence of structural mutations issued by
`updateMembersTable` (src/code.gas.js:893-1050), given the members table's
meta, the current data row count (`values.length - 1`) and the target row
count (`estimateMembers.length`):
* target `0`: early return (src/code.gas.js:893-898) — nothing is issued;
* otherwise: insert `requiredRows` rows at `dataStartRow` (step 1,
  src/code.gas.js:972-994), then, if there were data rows, delete
  `currentDataRows` rows starting at `dataStartRow + requiredRows` (step 2,
  src/code.gas.js:996-1023), then update the declared table range so its end
  row is `startRow + 1 + requiredRows` (step 3, src/code.gas.js:1025-1050). -/
def updateMembersTableOps (meta : TableMeta) (currentDataRows requiredRows : Nat) :
    List StructuralOp :=
  if requiredRows = 0 then []
  else
    let dataStartRow := jsOr meta.range.startRowIndex 0 + 1
    let insertOps : List StructuralOp :=
      if requiredRows > 0 then
        [.insertRows meta.sheetId dataStartRow (dataStartRow + requiredRows)]
      else []
    let deleteOps : List StructuralOp :=
      if currentDataRows > 0 then
        [.deleteRows meta.sheetId (dataStartRow + requiredRows)
          (dataStartRow + requiredRows + currentDataRows)]
      else []
    let newTableEndRow := jsOr meta.range.startRowIndex 0 + 1 + requiredRows
    insertOps ++ deleteOps ++
      [.updateTableRange meta.tableId
        { sheetId := some meta.sheetId
          startRowIndex := meta.range.startRowIndex
          endRowIndex := some newTableEndRow
          startColumnIndex := meta.range.startColumnIndex
          endColumnIndex := meta.range.endColumnIndex }]

/-- Semantics of one structural mutation on a sheet, modelled as its list of
rows. `insertDimension` inserts `endIndex - startIndex` blank rows at
`startIndex`; `deleteDimension` removes rows `[startIndex, endIndex)`;
updating a table's declared range does not move any row. -/
def applyOp (rows : List (List String)) : StructuralOp → List (List String)
  | .insertRows _ s e => rows.take s ++ List.replicate (e - s) [] ++ rows.drop s
  | .deleteRows _ s e => rows.take s ++ rows.drop e
  | .updateTableRange _ _ => rows

/-- Apply a sequence of structural mutations in order. -/
def applyOps (rows : List (List String)) (ops : List StructuralOp) : List (List String) :=
  ops.foldl applyOp rows

/-! ## Record loaders -/

/-- Row loop of `getPoGroupMembers` (src/code.gas.js:585-598): trim the
tracked cells; skip a row whose display name and email both trim to empty;
push each non-empty value to its own array. -/
def poLoop (dnIdx emIdx : Nat) : List (List String) → List String × List String
  | [] => ([], [])
  | row :: rest =>
    let dn := jsTrim (row.getD dnIdx "")
    let em := jsTrim (row.getD emIdx "")
    let t := poLoop dnIdx emIdx rest
    if dn = "" ∧ em = "" then t
    else ((if dn = "" then t.1 else dn :: t.1), (if em = "" then t.2 else em :: t.2))

/-- Embeds `getPoGroupMembers` (src/code.gas.js:556-608), as a function of the
fetched cell values: header-row detection, column resolution by trimmed
header names, then the row loop. -/
def getPoGroupMembers (values : List (List String)) :
    Except String (List String × List String) :=
  match values with
  | [] => .error "テーブルが空です: POグループメンバー"
  | headerRaw :: dataRows =>
    let header := headerRaw.map jsTrim
    match header.findIdx? (· == "表示名"), header.findIdx? (· == "メールアドレス") with
    | some dnIdx, some emIdx => .ok (poLoop dnIdx emIdx dataRows)
    | _, _ =>
      .error "ヘッダー未検出: 必要な列名「表示名」「メールアドレス」"

/-- Embeds `EstimateRequiredMemberRow` (src/code.gas.js:625). The source annotates
`responseRequired` with the union type `"不要" | "必要"`; at runtime it is a
string, so it is embedded as `String` and the invariant is proved. -/
structure EstimateRequiredMemberRow where
  displayName : String
  email : String
  responseRequired : String
deriving DecidableEq, Repr

/-- Row loop of `getEstimateRequiredMembers` (src/code.gas.js:665-691): skip
a row whose display name and email both trim to empty; skip (with a warning)
a row whose trimmed 回答要否 is neither `不要` nor `必要`; otherwise push the
typed record. -/
def ermLoop (dnIdx emIdx rrIdx : Nat) :
    List (List String) → List EstimateRequiredMemberRow
  | [] => []
  | row :: rest =>
    let displayName := jsTrim (row.getD dnIdx "")
    let email := jsTrim (row.getD emIdx "")
    let responseRequired := jsTrim (row.getD rrIdx "")
    let t := ermLoop dnIdx emIdx rrIdx rest
    if displayName = "" ∧ email = "" then t
    else if responseRequired ≠ "不要" ∧ responseRequired ≠ "必要" then t
    else ⟨displayName, email, responseRequired⟩ :: t

/-- Embeds `getEstimateRequiredMembers` (src/code.gas.js:633-700), as a function of
the fetched cell values. -/
def getEstimateRequiredMembers (values : List (List String)) :
    Except String (List EstimateRequiredMemberRow) :=
  match values with
  | [] => .error "テーブルが空です: 見積もり必要_メンバー"
  | headerRaw :: dataRows =>
    let header := headerRaw.map jsTrim
    match header.findIdx? (· == "表示名"), header.findIdx? (· == "メールアドレス"),
        header.findIdx? (· == "回答要否") with
    | some dnIdx, some emIdx, some rrIdx => .ok (ermLoop dnIdx emIdx rrIdx dataRows)
    | _, _, _ =>
      .error "ヘッダー未検出: 必要な列名「表示名」「メールアドレス」「回答要否」"

/-- Embeds `EstimateDeadlineRow` (src/code.gas.js:1387). -/
structure EstimateDeadlineRow where
  dueDate : String
deriving DecidableEq, Repr

/-- Row loop of `getEstimateDeadlines` (src/code.gas.js:1421-1425): every
data row is pushed, with its trimmed 締切日 cell; no row is skipped. -/
def edLoop (dueIdx : Nat) : List (List String) → List EstimateDeadlineRow
  | [] => []
  | row :: rest => ⟨jsTrim (row.getD dueIdx "")⟩ :: edLoop dueIdx rest

/-- Embeds `getEstimateDeadlines` (src/code.gas.js:1395-1434), as a function of the
fetched cell values. -/
def getEstimateDeadlines (values : List (List String)) :
    Except String (List EstimateDeadlineRow) :=
  match values with
  | [] => .error "テーブルが空です: 見積もり必要_締切"
  | headerRaw :: dataRows =>
    let header := headerRaw.map jsTrim
    match header.findIdx? (· == "締切日") with
    | some dueIdx => .ok (edLoop dueIdx dataRows)
    | none => .error "ヘッダー未検出: 必要な列名「締切日」"

/-! ## Supporting lemmas -/

theorem takeWhileAllAppend {α} (p : α → Bool) (as : List α) (b : α) (bs : List α)
    (ha : ∀ a ∈ as, p a = true) (hb : p b = false) :
    (as ++ b :: bs).takeWhile p = as := by
  induction as with
  | nil => simp [List.takeWhile_cons, hb]
  | cons x xs ih =>
    have hx : p x = true := ha x (by simp)
    simp [List.takeWhile_cons, hx, ih (fun a h => ha a (by simp [h]))]

theorem dropWhileAllAppend {α} (p : α → Bool) (as : List α) (b : α) (bs : List α)
    (ha : ∀ a ∈ as, p a = true) (hb : p b = false) :
    (as ++ b :: bs).dropWhile p = b :: bs := by
  induction as with
  | nil => simp [List.dropWhile_cons, hb]
  | cons x xs ih =>
    have hx : p x = true := ha x (by simp)
    simp [List.dropWhile_cons, hx, ih (fun a h => ha a (by simp [h]))]

theorem colA1Go_acc (f : Nat) : ∀ (n : Nat) (acc : List Char),
    colA1Go f n acc = colA1Go f n [] ++ acc := by
  induction f with
  | zero => intro n acc; cases n <;> simp [colA1Go]
  | succ f ih =>
    intro n acc
    cases n with
    | zero => simp [colA1Go]
    | succ m =>
      simp only [colA1Go]
      rw [ih (m / 26) (Char.ofNat (65 + m % 26) :: acc),
        ih (m / 26) [Char.ofNat (65 + m % 26)]]
      simp

theorem charOfNat_upper_toNat (r : Nat) (h : r < 26) :
    (Char.ofNat (65 + r)).toNat = 65 + r := by
  interval_cases r <;> decide

theorem charOfNat_digit_toNat (d : Nat) (h : d < 10) :
    (Char.ofNat (48 + d)).toNat = 48 + d := by
  interval_cases d <;> decide

theorem colA1Go_mem (f : Nat) : ∀ (n : Nat) (acc : List Char) (c : Char),
    c ∈ colA1Go f n acc → (65 ≤ c.toNat ∧ c.toNat ≤ 90) ∨ c ∈ acc := by
  induction f with
  | zero =>
    intro n acc c hc
    cases n <;> · right; simpa [colA1Go] using hc
  | succ f ih =>
    intro n acc c hc
    cases n with
    | zero => right; simpa [colA1Go] using hc
    | succ m =>
      simp only [colA1Go] at hc
      rcases ih (m / 26) (Char.ofNat (65 + m % 26) :: acc) c hc with h | h
      · exact Or.inl h
      · rcases List.mem_cons.mp h with rfl | h
        · left
          have hr : m % 26 < 26 := Nat.mod_lt _ (by norm_num)
          have := charOfNat_upper_toNat (m % 26) hr
          omega
        · exact Or.inr h

theorem colA1Go_ne_nil (f m : Nat) (acc : List Char) :
    colA1Go (f + 1) (m + 1) acc ≠ [] := by
  simp only [colA1Go]
  rw [colA1Go_acc]
  simp

theorem decodeCol_append_singleton (xs : List Char) (c : Char) :
    decodeCol (xs ++ [c]) = decodeCol xs * 26 + (c.toNat - 64) := by
  simp [decodeCol, List.foldl_append]

theorem decodeCol_colA1Go (f : Nat) : ∀ n : Nat, n ≤ f →
    decodeCol (colA1Go f n []) = n := by
  induction f with
  | zero =>
    intro n h
    have : n = 0 := by omega
    subst this
    simp [colA1Go, decodeCol]
  | succ f ih =>
    intro n h
    cases n with
    | zero => simp [colA1Go, decodeCol]
    | succ m =>
      have hstep : colA1Go (f + 1) (m + 1) [] =
          colA1Go f (m / 26) [] ++ [Char.ofNat (65 + m % 26)] := by
        simp only [colA1Go]
        rw [colA1Go_acc]
      rw [hstep, decodeCol_append_singleton,
        ih (m / 26) (by have := Nat.div_le_self m 26; omega)]
      have hr : m % 26 < 26 := Nat.mod_lt _ (by norm_num)
      rw [charOfNat_upper_toNat _ hr]
      have := Nat.div_add_mod m 26
      omega

/-! ## C6 — column-letter encoding -/

/-- C6: the column-letter encoding is 1-based bijective base-26. `toColA1`
takes the zero-based index `z` of the positive column number `n = z + 1`; for
every such column it emits a non-empty string consisting only of the letters
`A`–`Z` (no zero digit exists in the encoding), and in particular columns
1, 26, 27, 52, 702 map to `"A"`, `"Z"`, `"AA"`, `"AZ"`, `"ZZ"`. -/
theorem toColA1_bijective_base26 :
    (∀ z : Nat, (toColA1 z).data ≠ [] ∧
      ∀ c ∈ (toColA1 z).data, 'A'.toNat ≤ c.toNat ∧ c.toNat ≤ 'Z'.toNat)
    ∧ toColA1 0 = "A" ∧ toColA1 25 = "Z" ∧ toColA1 26 = "AA"
    ∧ toColA1 51 = "AZ" ∧ toColA1 701 = "ZZ" := by
  refine ⟨fun z => ⟨colA1Go_ne_nil z z [], fun c hc => ?_⟩,
    by decide, by decide, by decide, by decide, by decide⟩
  rcases colA1Go_mem (z + 1) (z + 1) [] c hc with h | h
  · exact h
  · simp at h

/-! ## Decimal printing lemmas -/

theorem natToDecGo_acc (f : Nat) : ∀ (n : Nat) (acc : List Char),
    natToDecGo f n acc = natToDecGo f n [] ++ acc := by
  induction f with
  | zero => intro n acc; simp [natToDecGo]
  | succ f ih =>
    intro n acc
    by_cases h : n < 10
    · simp [natToDecGo, h]
    · simp only [natToDecGo, if_neg h]
      rw [ih (n / 10) (Char.ofNat (48 + n % 10) :: acc),
        ih (n / 10) [Char.ofNat (48 + n % 10)]]
      simp

theorem natToDecGo_mem (f : Nat) : ∀ (n : Nat) (acc : List Char) (c : Char),
    c ∈ natToDecGo f n acc → (48 ≤ c.toNat ∧ c.toNat ≤ 57) ∨ c ∈ acc := by
  induction f with
  | zero =>
    intro n acc c hc
    simp only [natToDecGo, List.mem_cons] at hc
    rcases hc with rfl | h
    · left
      have hr : n % 10 < 10 := Nat.mod_lt _ (by norm_num)
      have := charOfNat_digit_toNat (n % 10) hr
      omega
    · exact Or.inr h
  | succ f ih =>
    intro n acc c hc
    by_cases h : n < 10
    · simp only [natToDecGo, if_pos h, List.mem_cons] at hc
      rcases hc with rfl | hm
      · left
        have := charOfNat_digit_toNat n h
        omega
      · exact Or.inr hm
    · simp only [natToDecGo, if_neg h] at hc
      rcases ih (n / 10) (Char.ofNat (48 + n % 10) :: acc) c hc with hh | hh
      · exact Or.inl hh
      · rcases List.mem_cons.mp hh with rfl | hm
        · left
          have hr : n % 10 < 10 := Nat.mod_lt _ (by norm_num)
          have := charOfNat_digit_toNat (n % 10) hr
          omega
        · exact Or.inr hm

theorem natToDecGo_ne_nil (f n : Nat) (acc : List Char) :
    natToDecGo f n acc ≠ [] := by
  cases f with
  | zero => simp [natToDecGo]
  | succ f =>
    by_cases h : n < 10
    · simp [natToDecGo, h]
    · simp only [natToDecGo, if_neg h]
      rw [natToDecGo_acc]
      simp

theorem decodeDec_append_singleton (xs : List Char) (c : Char) :
    decodeDec (xs ++ [c]) = decodeDec xs * 10 + (c.toNat - 48) := by
  simp [decodeDec, List.foldl_append]

theorem decodeDec_natToDecGo (f : Nat) : ∀ n : Nat, n ≤ f →
    decodeDec (natToDecGo f n []) = n := by
  induction f with
  | zero =>
    intro n h
    have hn : n = 0 := by omega
    subst hn
    simp [natToDecGo, decodeDec]
  | succ f ih =>
    intro n h
    by_cases hlt : n < 10
    · simp only [natToDecGo, if_pos hlt]
      have := charOfNat_digit_toNat n hlt
      simp [decodeDec, this]
    · simp only [natToDecGo, if_neg hlt]
      rw [natToDecGo_acc, decodeDec_append_singleton]
      have hdiv : n / 10 ≤ f := by
        have := Nat.div_lt_self (by omega : 0 < n) (by norm_num : 1 < 10)
        omega
      rw [ih (n / 10) hdiv]
      have hr : n % 10 < 10 := Nat.mod_lt _ (by norm_num)
      rw [charOfNat_digit_toNat _ hr]
      have := Nat.div_add_mod n 10
      omega

theorem decodeDec_natToDecimal (n : Nat) :
    decodeDec (natToDecimal n).data = n :=
  decodeDec_natToDecGo n n (Nat.le_refl n)

theorem decodeCol_toColA1 (z : Nat) :
    decodeCol (toColA1 z).data = z + 1 :=
  decodeCol_colA1Go (z + 1) (z + 1) (Nat.le_refl _)

/-! ## Character-class lemmas for address parsing -/

theorem toColA1_data_mem (z : Nat) (c : Char) (h : c ∈ (toColA1 z).data) :
    65 ≤ c.toNat ∧ c.toNat ≤ 90 := by
  rcases colA1Go_mem (z + 1) (z + 1) [] c h with hh | hh
  · exact hh
  · simp at hh

theorem natToDecimal_data_mem (n : Nat) (c : Char) (h : c ∈ (natToDecimal n).data) :
    48 ≤ c.toNat ∧ c.toNat ≤ 57 := by
  rcases natToDecGo_mem n n [] c h with hh | hh
  · exact hh
  · simp at hh

theorem upper_ne_bang {c : Char} (h : 65 ≤ c.toNat ∧ c.toNat ≤ 90) : c ≠ '!' := by
  rintro rfl
  revert h
  decide

theorem upper_ne_colon {c : Char} (h : 65 ≤ c.toNat ∧ c.toNat ≤ 90) : c ≠ ':' := by
  rintro rfl
  revert h
  decide

theorem digit_ne_bang {c : Char} (h : 48 ≤ c.toNat ∧ c.toNat ≤ 57) : c ≠ '!' := by
  rintro rfl
  revert h
  decide

theorem digit_ne_colon {c : Char} (h : 48 ≤ c.toNat ∧ c.toNat ≤ 57) : c ≠ ':' := by
  rintro rfl
  revert h
  decide

theorem upper_isColLetter {c : Char} (h : 65 ≤ c.toNat ∧ c.toNat ≤ 90) :
    isColLetter c = true := by
  simp [isColLetter]
  omega

theorem digit_not_isColLetter {c : Char} (h : 48 ≤ c.toNat ∧ c.toNat ≤ 57) :
    isColLetter c = false := by
  simp [isColLetter]
  omega

theorem afterLastBang_append (a b : List Char) (hb : ∀ c ∈ b, c ≠ '!') :
    afterLastBang (a ++ '!' :: b) = b := by
  unfold afterLastBang
  rw [List.reverse_append, List.reverse_cons, List.append_assoc,
    List.singleton_append]
  rw [takeWhileAllAppend _ b.reverse '!' a.reverse
    (fun c hc => by simp [hb c (List.mem_reverse.mp hc)])
    (by simp)]
  exact List.reverse_reverse b

theorem jsOr_some_zero (x : Nat) : jsOr (some x) 0 = x := by
  by_cases h : x = 0 <;> simp [jsOr, h]

theorem jsOr_some_of_ne {x : Nat} (d : Nat) (h : x ≠ 0) : jsOr (some x) d = x := by
  simp [jsOr, h]

/-! ## C3 — address round-trip -/

/-- C3: for every rectangle with valid bounds (`endRow > startRow`,
`endCol > startCol`, all bounds present) and every sheet title, converting to
an address with `gridRangeToA1` and parsing back with `toRectangle` recovers
the rectangle. -/
theorem toRectangle_gridRangeToA1
    (sid : Option Int) (sr er sc ec : Nat) (title : String)
    (hrow : sr < er) (hcol : sc < ec) :
    toRectangle (gridRangeToA1 ⟨sid, some sr, some er, some sc, some ec⟩ title) =
      some ⟨sr, er, sc, ec⟩ := by
  have her : er ≠ 0 := by omega
  have hec : ec ≠ 0 := by omega
  have haddr : gridRangeToA1 ⟨sid, some sr, some er, some sc, some ec⟩ title =
      title ++ "!" ++ toColA1 sc ++ natToDecimal (sr + 1) ++ ":" ++
        toColA1 (ec - 1) ++ natToDecimal er := by
    simp only [gridRangeToA1, jsOr_some_zero, jsOr_some_of_ne _ her,
      jsOr_some_of_ne _ hec]
  rw [haddr]
  have hdata : (title ++ "!" ++ toColA1 sc ++ natToDecimal (sr + 1) ++ ":" ++
      toColA1 (ec - 1) ++ natToDecimal er).data =
      title.data ++ '!' :: ((toColA1 sc).data ++ ((natToDecimal (sr + 1)).data ++
        ':' :: ((toColA1 (ec - 1)).data ++ (natToDecimal er).data))) := by
    simp [String.data_append]
  have hAmem := toColA1_data_mem sc
  have hBmem := natToDecimal_data_mem (sr + 1)
  have hCmem := toColA1_data_mem (ec - 1)
  have hDmem := natToDecimal_data_mem er
  have htail : afterLastBang (title ++ "!" ++ toColA1 sc ++ natToDecimal (sr + 1) ++
      ":" ++ toColA1 (ec - 1) ++ natToDecimal er).data =
      (toColA1 sc).data ++ ((natToDecimal (sr + 1)).data ++
        ':' :: ((toColA1 (ec - 1)).data ++ (natToDecimal er).data)) := by
    rw [hdata]
    apply afterLastBang_append
    intro c hc
    rcases List.mem_append.mp hc with h | h
    · exact upper_ne_bang (hAmem c h)
    rcases List.mem_append.mp h with h | h
    · exact digit_ne_bang (hBmem c h)
    rcases List.mem_cons.mp h with rfl | h
    · decide
    rcases List.mem_append.mp h with h | h
    · exact upper_ne_bang (hCmem c h)
    · exact digit_ne_bang (hDmem c h)
  have hstartCell : ((toColA1 sc).data ++ ((natToDecimal (sr + 1)).data ++
      ':' :: ((toColA1 (ec - 1)).data ++ (natToDecimal er).data))).takeWhile
        (fun c => c ≠ ':') = (toColA1 sc).data ++ (natToDecimal (sr + 1)).data := by
    rw [← List.append_assoc]
    apply takeWhileAllAppend
    · intro c hc
      rcases List.mem_append.mp hc with h | h
      · simp [upper_ne_colon (hAmem c h)]
      · simp [digit_ne_colon (hBmem c h)]
    · simp
  have hendCell : (((toColA1 sc).data ++ ((natToDecimal (sr + 1)).data ++
      ':' :: ((toColA1 (ec - 1)).data ++ (natToDecimal er).data))).dropWhile
        (fun c => c ≠ ':')).drop 1 =
      (toColA1 (ec - 1)).data ++ (natToDecimal er).data := by
    rw [← List.append_assoc]
    rw [dropWhileAllAppend _ _ ':' _ ?_ (by simp)]
    · simp
    · intro c hc
      rcases List.mem_append.mp hc with h | h
      · simp [upper_ne_colon (hAmem c h)]
      · simp [digit_ne_colon (hBmem c h)]
  have hBne : (natToDecimal (sr + 1)).data ≠ [] := natToDecGo_ne_nil _ _ _
  have hDne : (natToDecimal er).data ≠ [] := natToDecGo_ne_nil _ _ _
  obtain ⟨b, bs, hBeq⟩ := List.exists_cons_of_ne_nil hBne
  obtain ⟨d, ds, hDeq⟩ := List.exists_cons_of_ne_nil hDne
  have hsL : ((toColA1 sc).data ++ (natToDecimal (sr + 1)).data).takeWhile
      isColLetter = (toColA1 sc).data := by
    rw [hBeq]
    apply takeWhileAllAppend
    · intro c hc
      exact upper_isColLetter (hAmem c hc)
    · exact digit_not_isColLetter (hBmem b (by rw [hBeq]; simp))
  have hsD : ((toColA1 sc).data ++ (natToDecimal (sr + 1)).data).dropWhile
      isColLetter = (natToDecimal (sr + 1)).data := by
    rw [hBeq]
    rw [dropWhileAllAppend _ _ b bs ?_ ?_]
    · intro c hc
      exact upper_isColLetter (hAmem c hc)
    · exact digit_not_isColLetter (hBmem b (by rw [hBeq]; simp))
  have heL : ((toColA1 (ec - 1)).data ++ (natToDecimal er).data).takeWhile
      isColLetter = (toColA1 (ec - 1)).data := by
    rw [hDeq]
    apply takeWhileAllAppend
    · intro c hc
      exact upper_isColLetter (hCmem c hc)
    · exact digit_not_isColLetter (hDmem d (by rw [hDeq]; simp))
  have heD : ((toColA1 (ec - 1)).data ++ (natToDecimal er).data).dropWhile
      isColLetter = (natToDecimal er).data := by
    rw [hDeq]
    rw [dropWhileAllAppend _ _ d ds ?_ ?_]
    · intro c hc
      exact upper_isColLetter (hCmem c hc)
    · exact digit_not_isColLetter (hDmem d (by rw [hDeq]; simp))
  have hAne : (toColA1 sc).data ≠ [] := colA1Go_ne_nil _ _ _
  have hCne : (toColA1 (ec - 1)).data ≠ [] := colA1Go_ne_nil _ _ _
  simp only [toRectangle, htail, hstartCell, hendCell, hsL, hsD, heL, heD]
  rw [if_pos ⟨hAne, hBne, hCne, hDne⟩]
  have h1 : decodeDec (natToDecimal (sr + 1)).data = sr + 1 := decodeDec_natToDecimal _
  have h2 : decodeDec (natToDecimal er).data = er := decodeDec_natToDecimal _
  have h3 : decodeCol (toColA1 sc).data = sc + 1 := decodeCol_toColA1 _
  have h4 : decodeCol (toColA1 (ec - 1)).data = ec - 1 + 1 := decodeCol_toColA1 _
  have e1 : sr + 1 - 1 = sr := by omega
  have e3 : sc + 1 - 1 = sc := by omega
  have e4 : ec - 1 + 1 = ec := by omega
  rw [h1, h2, h3, h4, e1, e3, e4]

/-- Witness for C3: a concrete rectangle round-trips. -/
theorem toRectangle_gridRangeToA1_witness :
    toRectangle (gridRangeToA1 ⟨some 0, some 2, some 7, some 3, some 30⟩
      "Sheet1") = some ⟨2, 7, 3, 30⟩ :=
  toRectangle_gridRangeToA1 (some 0) 2 7 3 30 "Sheet1" (by decide) (by decide)

/-! ## C4 — missing bounds are silently defaulted, not fatal -/

/-- Counterexample to C4: calling `gridRangeToA1` on a rectangle with every
bound missing is not an error — it silently produces the same address as the
fully-populated rectangle with the default bounds (start row 0, end row 1,
start column 0, end column 1), namely `Sheet1!A1:A1`. -/
theorem gridRangeToA1_missing_bounds_not_fatal :
    gridRangeToA1 {} "Sheet1" = "Sheet1!A1:A1" ∧
    gridRangeToA1 {} "Sheet1" =
      gridRangeToA1 ⟨none, some 0, some 1, some 0, some 1⟩ "Sheet1" := by
  constructor <;> decide

theorem jsOr_ne_zero (v : Option Nat) {d : Nat} (h : d ≠ 0) : jsOr v d ≠ 0 := by
  cases v with
  | none => simpa [jsOr] using h
  | some x => by_cases hx : x = 0 <;> simp [jsOr, hx, h]

/-- C4 amended: `gridRangeToA1` never raises on a rectangle with missing (or
zero, which JS `||` treats the same) bounds; each bound is silently defaulted
— `startRowIndex` to 0, `endRowIndex` to the start row, `startColumnIndex`
to 0 and `endColumnIndex` to 1 — so the output always equals the output on
the fully-populated rectangle with those defaults filled in. -/
theorem gridRangeToA1_defaults (gr : GGridRange) (title : String) :
    gridRangeToA1 gr title =
      gridRangeToA1
        { sheetId := gr.sheetId
          startRowIndex := some (jsOr gr.startRowIndex 0)
          endRowIndex := some (jsOr gr.endRowIndex (jsOr gr.startRowIndex 0 + 1))
          startColumnIndex := some (jsOr gr.startColumnIndex 0)
          endColumnIndex := some (jsOr gr.endColumnIndex 1) } title := by
  simp only [gridRangeToA1, jsOr_some_zero,
    jsOr_some_of_ne _ (jsOr_ne_zero gr.endRowIndex (Nat.succ_ne_zero _)),
    jsOr_some_of_ne _ (jsOr_ne_zero gr.endColumnIndex one_ne_zero)]

/-! ## C5 — the registry is rebuilt on every lookup -/

/-- Counterexample to C5: the table registry is not memoized. Two successive
`getTableMetaByName` lookups of the same name in one execution issue two
registry scans — after the second lookup the scan counter is 2, not 1 as a
build-once memoized registry would give. -/
theorem getTableMetaByName_two_lookups_two_scans :
    (getTableMetaByName "メンバー"
      [⟨some 1, some "S", [⟨"メンバー", "t1", {}⟩]⟩]
      (getTableMetaByName "メンバー"
        [⟨some 1, some "S", [⟨"メンバー", "t1", {}⟩]⟩] ⟨0⟩).2).2.scans = 2 := by
  decide

/-- C5 amended: the source keeps no memo for the tables index — every call to
`getTableMetaByName` calls `getTablesIndex`, which issues its own
`Sheets.Spreadsheets.get` registry scan; `n` lookups issue `n` scans. -/
theorem getTableMetaByName_scans_every_lookup
    (tableName : String) (ss : List SheetEntry) (st : ExecState) :
    (getTableMetaByName tableName ss st).2.scans = st.scans + 1 := by
  unfold getTableMetaByName getTablesIndex
  cases h : lookupTable (buildTablesIndex ss) tableName <;> simp [h]

/-! ## C8 — table lookup: absent fails, present returns the descriptor -/

/-- C8: `getTableMetaByName` on a name absent from the registry's
name-to-descriptor mapping returns the `table not found` error, never a
value; on a present name it returns that table's descriptor. -/
theorem getTableMetaByName_absent_present
    (tableName : String) (ss : List SheetEntry) (st : ExecState) :
    (lookupTable (buildTablesIndex ss) tableName = none →
      (getTableMetaByName tableName ss st).1 =
        .error s!"table not found: {tableName}") ∧
    (∀ meta, lookupTable (buildTablesIndex ss) tableName = some meta →
      (getTableMetaByName tableName ss st).1 = .ok meta) := by
  constructor
  · intro h
    simp [getTableMetaByName, getTablesIndex, h]
  · intro meta h
    simp [getTableMetaByName, getTablesIndex, h]

/-- Witness for C8 at a concrete registry: a present table is returned, an
absent one raises `table not found`. -/
theorem getTableMetaByName_absent_present_witness :
    (getTableMetaByName "POグループメンバー"
      [⟨some 1, some "S", [⟨"POグループメンバー", "t9", {}⟩]⟩] ⟨0⟩).1 =
      .ok ⟨"t9", 1, "S", {}⟩ ∧
    (getTableMetaByName "DoesNotExist"
      [⟨some 1, some "S", [⟨"POグループメンバー", "t9", {}⟩]⟩] ⟨0⟩).1 =
      .error "table not found: DoesNotExist" :=
  ⟨(getTableMetaByName_absent_present "POグループメンバー"
      [⟨some 1, some "S", [⟨"POグループメンバー", "t9", {}⟩]⟩] ⟨0⟩).2
      ⟨"t9", 1, "S", {}⟩ (by decide),
   (getTableMetaByName_absent_present "DoesNotExist"
      [⟨some 1, some "S", [⟨"POグループメンバー", "t9", {}⟩]⟩] ⟨0⟩).1
      (by decide)⟩

/-! ## C7 — header lookup: trimmed, exact, fails loudly -/

/-- C7: header lookup operates on the trimmed header cells and is
case-sensitive exact match. A name absent from the trimmed header row always
yields the `ヘッダー未検出` error, never a sentinel index; a present name
yields the offset of its first occurrence — the entry there is exactly the
name, and no earlier entry is (so repeated calls on the same header return
the same stable offset). -/
theorem idxByName_trimmed_exact
    (raw : List String) (name : String) :
    (name ∉ buildHeaderVals raw →
      idxByName (buildHeaderVals raw) name = .error s!"ヘッダー未検出: {name}") ∧
    (name ∈ buildHeaderVals raw →
      ∃ i, idxByName (buildHeaderVals raw) name = .ok i ∧
        (buildHeaderVals raw)[i]? = some name ∧
        ∀ j, j < i → (buildHeaderVals raw)[j]? ≠ some name) := by
  constructor
  · intro h
    have hnone : (buildHeaderVals raw).findIdx? (· == name) = none := by
      rw [List.findIdx?_eq_none_iff]
      intro x hx
      rcases eq_or_ne x name with rfl | hne
      · exact absurd hx h
      · simp [hne]
    simp [idxByName, hnone]
  · intro h
    have hex : ∃ i, (buildHeaderVals raw).findIdx? (· == name) = some i := by
      cases hfi : (buildHeaderVals raw).findIdx? (· == name) with
      | some i => exact ⟨i, rfl⟩
      | none =>
        rw [List.findIdx?_eq_none_iff] at hfi
        have := hfi name h
        simp at this
    obtain ⟨i, hi⟩ := hex
    obtain ⟨hlen, hp, hmin⟩ := List.findIdx?_eq_some_iff_getElem.mp hi
    refine ⟨i, by simp [idxByName, hi], ?_, ?_⟩
    · have hname : (buildHeaderVals raw)[i] = name := by simpa using hp
      simp [List.getElem?_eq_getElem hlen, hname]
    · intro j hj
      have hj' : j < (buildHeaderVals raw).length := lt_trans hj hlen
      have hne := hmin j hj
      simp only [List.getElem?_eq_getElem hj', ne_eq, Option.some.injEq]
      intro heq
      exact hne (by simp [heq])

/-- Witness for C7: on the header row `[" 表示名 ", "メールアドレス"]` the
unknown name fails with the error, and `表示名` (matching only after the
cell is trimmed) resolves to an offset. -/
theorem idxByName_trimmed_exact_witness :
    idxByName (buildHeaderVals [" 表示名 ", "メールアドレス"]) "存在しない" =
      .error "ヘッダー未検出: 存在しない" ∧
    ∃ i, idxByName (buildHeaderVals [" 表示名 ", "メールアドレス"]) "表示名" = .ok i ∧
      (buildHeaderVals [" 表示名 ", "メールアドレス"])[i]? = some "表示名" ∧
      ∀ j, j < i → (buildHeaderVals [" 表示名 ", "メールアドレス"])[j]? ≠ some "表示名" :=
  ⟨(idxByName_trimmed_exact [" 表示名 ", "メールアドレス"] "存在しない").1 (by decide),
   (idxByName_trimmed_exact [" 表示名 ", "メールアドレス"] "表示名").2 (by decide)⟩

/-! ## C1 — reconciliation order and resulting rectangle -/

/-- C1: for a target row count `N > 0` and current data row count `C`,
`updateMembersTable` issues its structural mutations in this order — first
insert `N` blank rows at `dataStartRow = startRow + 1`, then (only if
`C > 0`) delete exactly `C` rows starting at `dataStartRow + N`, then update
the declared rectangle to `endRow = startRow + 1 + N` with the column bounds
untouched. Applying the ops to the sheet replaces the `C` old data rows with
`N` blank rows in place (old data is shifted down by the insert, never
overwritten, then removed), leaving everything above and below intact. -/
theorem updateMembersTable_reconciliation
    (meta : TableMeta) (C N : Nat) (S : List (List String))
    (hN : 0 < N)
    (hS : jsOr meta.range.startRowIndex 0 + 1 + C ≤ S.length) :
    updateMembersTableOps meta C N =
      [.insertRows meta.sheetId (jsOr meta.range.startRowIndex 0 + 1)
        (jsOr meta.range.startRowIndex 0 + 1 + N)] ++
      (if 0 < C then
        [.deleteRows meta.sheetId (jsOr meta.range.startRowIndex 0 + 1 + N)
          (jsOr meta.range.startRowIndex 0 + 1 + N + C)]
       else []) ++
      [.updateTableRange meta.tableId
        { sheetId := some meta.sheetId
          startRowIndex := meta.range.startRowIndex
          endRowIndex := some (jsOr meta.range.startRowIndex 0 + 1 + N)
          startColumnIndex := meta.range.startColumnIndex
          endColumnIndex := meta.range.endColumnIndex }] ∧
    applyOps S (updateMembersTableOps meta C N) =
      S.take (jsOr meta.range.startRowIndex 0 + 1) ++ List.replicate N [] ++
        S.drop (jsOr meta.range.startRowIndex 0 + 1 + C) := by
  have hN' : N ≠ 0 := by omega
  set p := jsOr meta.range.startRowIndex 0 + 1 with hp
  have hops : updateMembersTableOps meta C N =
      [.insertRows meta.sheetId p (p + N)] ++
      (if 0 < C then
        [.deleteRows meta.sheetId (p + N) (p + N + C)]
       else []) ++
      [.updateTableRange meta.tableId
        { sheetId := some meta.sheetId
          startRowIndex := meta.range.startRowIndex
          endRowIndex := some (p + N)
          startColumnIndex := meta.range.startColumnIndex
          endColumnIndex := meta.range.endColumnIndex }] := by
    simp only [updateMembersTableOps, if_neg hN', if_pos hN, ← hp]
  have hpS : p ≤ S.length := by omega
  have htake : (S.take p).length = p := by
    simp [List.length_take, min_eq_left hpS]
  have step1 : applyOp S (.insertRows meta.sheetId p (p + N)) =
      (S.take p ++ List.replicate N ([] : List String)) ++ S.drop p := by
    simp only [applyOp, Nat.add_sub_cancel_left]
  have hupd : ∀ (rows : List (List String)) (tid : String) (rng : GGridRange),
      applyOp rows (.updateTableRange tid rng) = rows := fun _ _ _ => rfl
  refine ⟨by rw [hops], ?_⟩
  rw [hops]
  by_cases hC : 0 < C
  · rw [if_pos hC]
    have hthree : ∀ (o1 o2 o3 : StructuralOp),
        applyOps S (([o1] ++ [o2]) ++ [o3]) =
          applyOp (applyOp (applyOp S o1) o2) o3 := fun _ _ _ => rfl
    rw [hthree, step1, hupd]
    have hlen : (S.take p ++ List.replicate N ([] : List String)).length = p + N := by
      simp [htake]
    show ((S.take p ++ List.replicate N ([] : List String)) ++ S.drop p).take (p + N) ++
        ((S.take p ++ List.replicate N ([] : List String)) ++ S.drop p).drop (p + N + C) =
        S.take p ++ List.replicate N ([] : List String) ++ S.drop (p + C)
    have htk : ((S.take p ++ List.replicate N ([] : List String)) ++ S.drop p).take (p + N) =
        S.take p ++ List.replicate N ([] : List String) := by
      rw [← hlen, List.take_left]
    have hdr : ((S.take p ++ List.replicate N ([] : List String)) ++ S.drop p).drop (p + N + C) =
        S.drop (p + C) := by
      have he : p + N + C = (S.take p ++ List.replicate N ([] : List String)).length + C := by
        rw [hlen]
      rw [he, List.drop_append, List.drop_drop]
      try rw [Nat.add_comm C p]
    rw [htk, hdr]
  · rw [if_neg hC]
    have hC0 : C = 0 := by omega
    subst hC0
    have htwo : ∀ (o1 o3 : StructuralOp),
        applyOps S (([o1] ++ []) ++ [o3]) = applyOp (applyOp S o1) o3 :=
      fun _ _ => rfl
    rw [htwo, step1, hupd, Nat.add_zero]

/-- Witness for C1: a concrete reconciliation with 2 existing data rows and
target 1 on a 3-row sheet (header at row 0). -/
theorem updateMembersTable_reconciliation_witness :
    updateMembersTableOps ⟨"t1", 7, "S", ⟨some 7, some 0, some 3, some 0, some 2⟩⟩ 2 1 =
      [.insertRows 7 1 2, .deleteRows 7 2 4,
        .updateTableRange "t1" ⟨some 7, some 0, some 2, some 0, some 2⟩] ∧
    applyOps [["h"], ["a"], ["b"]]
      (updateMembersTableOps ⟨"t1", 7, "S", ⟨some 7, some 0, some 3, some 0, some 2⟩⟩ 2 1) =
      [["h"], []] := by
  have h := updateMembersTable_reconciliation
    ⟨"t1", 7, "S", ⟨some 7, some 0, some 3, some 0, some 2⟩⟩ 2 1
    [["h"], ["a"], ["b"]] (by decide) (by decide)
  exact ⟨by rw [h.1]; decide, by rw [h.2]; decide⟩

/-! ## C2 — target row count 0 skips the whole update -/

/-- Counterexample to C2: reconciling a table with 4 existing data rows to a
target of 0 issues no structural mutation at all — `updateMembersTable`
returns early when there are no estimate-required members, so no deletion is
performed and the declared rectangle is not shrunk to header-only. -/
theorem updateMembersTable_target_zero_not_deleted :
    updateMembersTableOps ⟨"t1", 1, "S", ⟨some 1, some 2, some 7, some 0, some 4⟩⟩ 4 0 =
      [] := by
  decide

/-- C2 amended: with target row count 0, `updateMembersTable` skips the whole
table update (src/code.gas.js:893-898): no insert, no deletion, no rectangle
change — the sheet is left exactly as it was, whatever the current data row
count. -/
theorem updateMembersTable_target_zero_noop
    (meta : TableMeta) (C : Nat) (S : List (List String)) :
    updateMembersTableOps meta C 0 = [] ∧
    applyOps S (updateMembersTableOps meta C 0) = S := by
  constructor <;> simp [updateMembersTableOps, applyOps]

/-! ## Loader loop lemmas -/

theorem poLoop_skip (dnIdx emIdx : Nat) (row : List String)
    (hdn : jsTrim (row.getD dnIdx "") = "") (hem : jsTrim (row.getD emIdx "") = "")
    (r1 r2 : List (List String)) :
    poLoop dnIdx emIdx (r1 ++ row :: r2) = poLoop dnIdx emIdx (r1 ++ r2) := by
  induction r1 with
  | nil =>
    simp only [List.nil_append, poLoop]
    rw [if_pos ⟨hdn, hem⟩]
  | cons x xs ih =>
    simp only [List.cons_append, poLoop, List.append_eq]
    rw [ih]

theorem ermLoop_skip_empty (dnIdx emIdx rrIdx : Nat) (row : List String)
    (hdn : jsTrim (row.getD dnIdx "") = "") (hem : jsTrim (row.getD emIdx "") = "")
    (r1 r2 : List (List String)) :
    ermLoop dnIdx emIdx rrIdx (r1 ++ row :: r2) =
      ermLoop dnIdx emIdx rrIdx (r1 ++ r2) := by
  induction r1 with
  | nil =>
    simp only [List.nil_append, ermLoop]
    rw [if_pos ⟨hdn, hem⟩]
  | cons x xs ih =>
    simp only [List.cons_append, ermLoop, List.append_eq]
    rw [ih]

theorem ermLoop_skip_invalid (dnIdx emIdx rrIdx : Nat) (row : List String)
    (hbad : jsTrim (row.getD rrIdx "") ≠ "不要" ∧ jsTrim (row.getD rrIdx "") ≠ "必要")
    (r1 r2 : List (List String)) :
    ermLoop dnIdx emIdx rrIdx (r1 ++ row :: r2) =
      ermLoop dnIdx emIdx rrIdx (r1 ++ r2) := by
  induction r1 with
  | nil =>
    simp only [List.nil_append, ermLoop]
    by_cases h1 : jsTrim (row.getD dnIdx "") = "" ∧ jsTrim (row.getD emIdx "") = ""
    · rw [if_pos h1]
    · rw [if_neg h1, if_pos hbad]
  | cons x xs ih =>
    simp only [List.cons_append, ermLoop, List.append_eq]
    rw [ih]

theorem ermLoop_mem_valid (dnIdx emIdx rrIdx : Nat) (rows : List (List String)) :
    ∀ r ∈ ermLoop dnIdx emIdx rrIdx rows,
      r.responseRequired = "不要" ∨ r.responseRequired = "必要" := by
  induction rows with
  | nil =>
    intro r hr
    simp [ermLoop] at hr
  | cons x xs ih =>
    intro r hr
    simp only [ermLoop] at hr
    by_cases h1 : jsTrim (x.getD dnIdx "") = "" ∧ jsTrim (x.getD emIdx "") = ""
    · rw [if_pos h1] at hr
      exact ih r hr
    · rw [if_neg h1] at hr
      by_cases h2 : jsTrim (x.getD rrIdx "") ≠ "不要" ∧ jsTrim (x.getD rrIdx "") ≠ "必要"
      · rw [if_pos h2] at hr
        exact ih r hr
      · rw [if_neg h2] at hr
        rcases List.mem_cons.mp hr with rfl | hr
        · rcases not_and_or.mp h2 with hh | hh
          · exact Or.inl (not_not.mp hh)
          · exact Or.inr (not_not.mp hh)
        · exact ih r hr

theorem edLoop_length (dueIdx : Nat) (rows : List (List String)) :
    (edLoop dueIdx rows).length = rows.length := by
  induction rows with
  | nil => rfl
  | cons x xs ih => simp [edLoop, ih]

/-! ## C9 — which loaders skip all-empty rows -/

/-- Counterexample to C9: the 見積もり必要_締切 loader does not skip
all-empty data rows — on a table whose single data row is entirely empty it
returns one record (with an empty due date) instead of none. -/
theorem getEstimateDeadlines_empty_row_returned :
    getEstimateDeadlines [["締切日"], []] = .ok [⟨""⟩] := by
  rfl

/-- C9 amended: a data row whose tracked cells trim to empty — the cells at
the header-resolved 表示名 and メールアドレス offsets, its other (untracked)
columns unconstrained — contributes no record for the members loaders:
`getPoGroupMembers` and `getEstimateRequiredMembers` return the same records
with or without such a row. But `getEstimateDeadlines` returns one record
per data row unconditionally, including all-empty ones. -/
theorem loaders_skip_all_empty_rows
    (h row : List String) (r1 r2 : List (List String))
    (hdr : List String) (rows : List (List String)) (l : List EstimateDeadlineRow)
    (hdn : ∀ i, (h.map jsTrim).findIdx? (· == "表示名") = some i →
      jsTrim (row.getD i "") = "")
    (hem : ∀ i, (h.map jsTrim).findIdx? (· == "メールアドレス") = some i →
      jsTrim (row.getD i "") = "")
    (hdl : getEstimateDeadlines (hdr :: rows) = .ok l) :
    getPoGroupMembers (h :: (r1 ++ row :: r2)) = getPoGroupMembers (h :: (r1 ++ r2)) ∧
    getEstimateRequiredMembers (h :: (r1 ++ row :: r2)) =
      getEstimateRequiredMembers (h :: (r1 ++ r2)) ∧
    l.length = rows.length := by
  refine ⟨?_, ?_, ?_⟩
  · cases hdneq : (h.map jsTrim).findIdx? (· == "表示名") with
    | none => simp [getPoGroupMembers, hdneq]
    | some dn =>
      cases hemeq : (h.map jsTrim).findIdx? (· == "メールアドレス") with
      | none => simp [getPoGroupMembers, hdneq, hemeq]
      | some em =>
        simp [getPoGroupMembers, hdneq, hemeq,
          poLoop_skip dn em row (hdn dn hdneq) (hem em hemeq) r1 r2]
  · cases hdneq : (h.map jsTrim).findIdx? (· == "表示名") with
    | none => simp [getEstimateRequiredMembers, hdneq]
    | some dn =>
      cases hemeq : (h.map jsTrim).findIdx? (· == "メールアドレス") with
      | none => simp [getEstimateRequiredMembers, hdneq, hemeq]
      | some em =>
        cases hrreq : (h.map jsTrim).findIdx? (· == "回答要否") with
        | none => simp [getEstimateRequiredMembers, hdneq, hemeq, hrreq]
        | some rr =>
          simp [getEstimateRequiredMembers, hdneq, hemeq, hrreq,
            ermLoop_skip_empty dn em rr row (hdn dn hdneq) (hem em hemeq) r1 r2]
  · simp only [getEstimateDeadlines] at hdl
    cases hdi : (hdr.map jsTrim).findIdx? (· == "締切日") with
    | none =>
      rw [hdi] at hdl
      simp at hdl
    | some i =>
      rw [hdi] at hdl
      simp only [Except.ok.injEq] at hdl
      rw [← hdl, edLoop_length]

/-- Witness for C9 (amended): a row whose 表示名 and メールアドレス cells trim
to empty but which carries data in an untracked third column is skipped by
both members loaders, while the deadline loader returns exactly one record
per data row. -/
theorem loaders_skip_all_empty_rows_witness :
    getPoGroupMembers
        [["表示名", "メールアドレス"], ["", " ", "メモ"], ["太郎", "taro@example.com"]] =
      getPoGroupMembers [["表示名", "メールアドレス"], ["太郎", "taro@example.com"]] ∧
    getEstimateRequiredMembers
        [["表示名", "メールアドレス"], ["", " ", "メモ"], ["太郎", "taro@example.com"]] =
      getEstimateRequiredMembers
        [["表示名", "メールアドレス"], ["太郎", "taro@example.com"]] ∧
    ([⟨""⟩] : List EstimateDeadlineRow).length = [[""]].length := by
  refine loaders_skip_all_empty_rows ["表示名", "メールアドレス"] ["", " ", "メモ"]
    [] [["太郎", "taro@example.com"]] ["締切日"] [[""]] [⟨""⟩] ?_ ?_ (by rfl)
  · intro i hi
    have h0 : ((["表示名", "メールアドレス"].map jsTrim).findIdx? (· == "表示名")) =
        some 0 := rfl
    rw [h0] at hi
    injection hi with hi
    subst hi
    rfl
  · intro i hi
    have h1 : ((["表示名", "メールアドレス"].map jsTrim).findIdx? (· == "メールアドレス")) =
        some 1 := rfl
    rw [h1] at hi
    injection hi with hi
    subst hi
    rfl

/-! ## C10 — responseRequired is validated -/

/-- C10: every record returned by `getEstimateRequiredMembers` has
`responseRequired` equal to `不要` or `必要`; a data row whose trimmed
回答要否 cell holds any other value contributes no record to the output. -/
theorem getEstimateRequiredMembers_validates
    (values : List (List String)) (rows : List EstimateRequiredMemberRow)
    (dnIdx emIdx rrIdx : Nat) (row : List String) (r1 r2 : List (List String))
    (h : getEstimateRequiredMembers values = .ok rows)
    (hbad : jsTrim (row.getD rrIdx "") ≠ "不要" ∧ jsTrim (row.getD rrIdx "") ≠ "必要") :
    (∀ r ∈ rows, r.responseRequired = "不要" ∨ r.responseRequired = "必要") ∧
    ermLoop dnIdx emIdx rrIdx (r1 ++ row :: r2) =
      ermLoop dnIdx emIdx rrIdx (r1 ++ r2) := by
  refine ⟨?_, ermLoop_skip_invalid dnIdx emIdx rrIdx row hbad r1 r2⟩
  cases values with
  | nil => simp [getEstimateRequiredMembers] at h
  | cons hd tl =>
    cases hdn : (hd.map jsTrim).findIdx? (· == "表示名") with
    | none => simp [getEstimateRequiredMembers, hdn] at h
    | some dn =>
      cases hem : (hd.map jsTrim).findIdx? (· == "メールアドレス") with
      | none => simp [getEstimateRequiredMembers, hdn, hem] at h
      | some em =>
        cases hrr : (hd.map jsTrim).findIdx? (· == "回答要否") with
        | none => simp [getEstimateRequiredMembers, hdn, hem, hrr] at h
        | some rr =>
          simp only [getEstimateRequiredMembers, hdn, hem, hrr,
            Except.ok.injEq] at h
          rw [← h]
          exact ermLoop_mem_valid dn em rr tl

/-- Witness for C10: a table whose data rows hold `必要`, an invalid value
and `不要` returns only the two valid records, and inserting an
invalid-valued row into the loop changes nothing. -/
theorem getEstimateRequiredMembers_validates_witness :
    ((⟨"太郎", "taro@example.com", "必要"⟩ : EstimateRequiredMemberRow).responseRequired =
        "不要" ∨
      (⟨"太郎", "taro@example.com", "必要"⟩ : EstimateRequiredMemberRow).responseRequired =
        "必要") ∧
    ermLoop 0 1 2 ([] ++ ["花子", "hanako@example.com", "たぶん"] :: []) =
      ermLoop 0 1 2 ([] ++ []) :=
  ⟨(getEstimateRequiredMembers_validates
      [["表示名", "メールアドレス", "回答要否"],
        ["太郎", "taro@example.com", "必要"],
        ["花子", "hanako@example.com", "たぶん"]]
      [⟨"太郎", "taro@example.com", "必要"⟩] 0 1 2
      ["花子", "hanako@example.com", "たぶん"] [] []
      (by rfl) (by decide)).1
      ⟨"太郎", "taro@example.com", "必要"⟩ (by decide),
   (getEstimateRequiredMembers_validates
      [["表示名", "メールアドレス", "回答要否"],
        ["太郎", "taro@example.com", "必要"],
        ["花子", "hanako@example.com", "たぶん"]]
      [⟨"太郎", "taro@example.com", "必要"⟩] 0 1 2
      ["花子", "hanako@example.com", "たぶん"] [] []
      (by rfl) (by decide)).2⟩

end ScrumPoker
